import Mathlib

/-
Shallow embedding of the reactive chat-synchronization engine in `src/chat.ts`
(classes `AppOnFirebase` and `RoomImpl`).

Modelling conventions:
- JS objects become Lean structures; JS reference identity for `Room` objects is
  modelled by a ghost allocation counter `oid` (each `new RoomImpl` gets a fresh
  one), so structural equality on the embedded `RoomS` coincides with `===`.
- `undefined`/`null` become `Option`; a JS `throw` becomes `Except.error`.
- Remote-store calls (`set`, `push`, `once`) are not executed; each operation
  returns the list of asynchronous effects it issues, and each effect records
  how a rejection of that remote call is routed (a `.catch` handler, or none),
  transcribed from the promise-chain structure of the source.
- Notification scheduling (`updateListeners`) is embedded twice: at operation
  level as a Bool "a notification was requested", and, for the coalescing
  behaviour itself, as an explicit `Coalescer` state machine with a microtask
  counter.
-/

namespace GroupChat

/- Data model (interfaces `Message`, `RoomData`, `MemberData` in chat.ts).
`from` and `private` are Lean keywords; fields `from_` and `private_` stand
for them. `Role` is a plain string in the running code ('owner' | 'applicant'
| 'member' | 'banned' | ''). -/

structure Message where
  from_ : String
  when_ : Nat
  message : String
  deriving DecidableEq, Repr

structure RoomData where
  private_ : Bool
  name : String
  deriving DecidableEq, Repr

structure MemberData where
  nickname : String
  role : String
  deriving DecidableEq, Repr

/- A thrown JS `Error` (only its `message` is ever consumed, by `displayError`). -/
structure JsError where
  message : String
  deriving DecidableEq, Repr

/- How the rejection of an asynchronous remote call is routed, read off the
promise-chain structure at each call site: `toDisplayError` when a `.catch`
whose handler is `displayError` covers the call, `unhandled` when no rejection
handler is attached (the rejection escapes). -/
inductive OnReject
  | unhandled
  | toDisplayError
  deriving DecidableEq, Repr

/- The remote operations the engine issues (paths `rooms/<rid>`,
`members/<rid>/<uid>`, `messages/<rid>`). The uid component of a member path
is `Option String`: `getMemberRef` defaults it to `this.uid`, which is absent
when nobody is signed in. -/
inductive RemoteOp
  | setRoom (rid : String) (v : Option RoomData)
  | setMember (rid : String) (uid : Option String) (v : MemberData)
  | deleteMembers (rid : String)
  | clearMessages (rid : String)
  | pushMessage (rid : String) (uid : String) (body : String)
  | onceMember (rid : String) (uid : Option String)
  deriving DecidableEq, Repr

/- An effect issued by an operation: a remote call together with its rejection
routing, or a local notification request (`this.app.updateListeners()`). -/
inductive Eff
  | remote (op : RemoteOp) (onReject : OnReject)
  | notify
  deriving DecidableEq, Repr

def handlerOf : Eff → Option OnReject
  | Eff.remote _ h => some h
  | Eff.notify => none

/- The pieces of `AppOnFirebase` that `RoomImpl` methods read through
`this.app`: the signed-in uid (absent when signed out) and
`this.app.state.nickname`. -/
structure AppAuth where
  uid : Option String
  nickname : String
  deriving DecidableEq, Repr

/- `getMemberRef(rid, uid?)`: when no uid argument is given, the app's current
uid is used — which may be absent. This computes the uid path component. -/
def getMemberRefUid (app : AppAuth) (uidArg : Option String) : Option String :=
  match uidArg with
  | none => app.uid
  | some u => some u

/- `ensureSignedIn(reason)` throws this error when `this.uid` is absent. -/
def notAuthenticatedError (reason : String) : JsError :=
  ⟨"Must be siged in to " ++ reason ++ "."⟩

/- `RoomImpl`: the message-log and nickname-cache part of a room's state.
`hasMessage` is the set of message ids marked true; `nicknameOf` the uid →
nickname cache, both as association structures over lists. -/
structure RoomMsgS where
  rid : String
  messages : List Message
  hasMessage : List String
  nicknameOf : List (String × String)
  deriving DecidableEq, Repr

/- A freshly constructed room's message state (`messages = []`,
`hasMessage = {}`, `nicknameOf = {}` in the RoomImpl field initializers). -/
def freshRoom (rid : String) : RoomMsgS :=
  ⟨rid, [], [], []⟩

/- `this.nicknameOf[uid]` as an association-list lookup. -/
def lookupNick (cache : List (String × String)) (uid : String) : Option String :=
  (cache.find? (fun p => p.1 == uid)).map (fun p => p.2)

/- `addMessage(mid, message)`: pushes the message, marks the id seen, and
returns the stored message — modelled by the index of the appended element
(the JS function returns `this.messages.slice(-1)[0]`, i.e. a reference to
that element). -/
def addMessage (r : RoomMsgS) (mid : String) (msg : Message) : RoomMsgS × Nat :=
  ({ r with
      messages := r.messages ++ [msg],
      hasMessage := r.hasMessage ++ [mid] },
    r.messages.length)

/- In-place rewrite of the `from` field of the message stored at index `i`
(`storedMessage.from = nick`). -/
def rewriteFrom (msgs : List Message) (i : Nat) (nick : String) : List Message :=
  match msgs.get? i with
  | some m => msgs.set i { m with from_ := nick }
  | none => msgs

/- `ensureMessage(mid, message)`. On a duplicate id: early return, no effect.
Otherwise the message is stored and the guard
`if (this.nicknameOf[message.from])` runs — a JS truthiness test, so an absent
cache entry (undefined) and a cached empty string are both falsy. Only a cached
non-empty nickname takes the synchronous-rewrite branch (with a notification);
otherwise a one-shot fetch of `members/<rid>/<from>` is issued — with no
rejection handler attached (`once` here has no `.catch`). -/
def ensureMessage (r : RoomMsgS) (mid : String) (msg : Message) :
    RoomMsgS × List Eff :=
  if r.hasMessage.contains mid then (r, [])
  else
    let stored := addMessage r mid msg
    match lookupNick stored.1.nicknameOf msg.from_ with
    | some nick =>
        if nick = "" then
          (stored.1,
            [Eff.remote (RemoteOp.onceMember r.rid (some msg.from_)) OnReject.unhandled])
        else
          ({ stored.1 with messages := rewriteFrom stored.1.messages stored.2 nick },
            [Eff.notify])
    | none =>
        (stored.1,
          [Eff.remote (RemoteOp.onceMember r.rid (some msg.from_)) OnReject.unhandled])

/- The error a JS property read `x.nickname` raises when `x` is null. -/
def nullFieldError : JsError :=
  ⟨"TypeError: Cannot read properties of null"⟩

/- JS `member.nickname` where `member` is `snapshot.val()`, possibly null:
total only on present records. -/
def readNicknameField : Option MemberData → Except JsError String
  | none => Except.error nullFieldError
  | some m => Except.ok m.nickname

/- The success callback of the `once('value', ...)` fetch inside
`ensureMessage`: `member = snapshot.val()` is dereferenced with no null guard,
then the cache, the raw message and the stored message (index `storedIdx`) are
updated and a notification requested. -/
def ensureMessageFetchCallback (r : RoomMsgS) (author : String) (storedIdx : Nat)
    (snapshotVal : Option MemberData) : Except JsError (RoomMsgS × List Eff) :=
  match readNicknameField snapshotVal with
  | Except.error e => Except.error e
  | Except.ok nick =>
      Except.ok
        ({ r with
            nicknameOf := r.nicknameOf ++ [(author, nick)],
            messages := rewriteFrom r.messages storedIdx nick },
          [Eff.notify])

/- Processing a sequence of `child_added` message deliveries
(`ensureMessage` calls), accumulating the issued effects. -/
def runIngests (l : List (String × Message)) (r : RoomMsgS) : RoomMsgS × List Eff :=
  match l with
  | [] => (r, [])
  | (mid, msg) :: rest =>
      let step := ensureMessage r mid msg
      let restRun := runIngests rest step.1
      (restRun.1, step.2 ++ restRun.2)

/- Counting the member fetches issued for a given author among the effects. -/
def isAuthorFetch (author : String) : Eff → Bool
  | Eff.remote (RemoteOp.onceMember _ (some uid)) _ => uid == author
  | _ => false

def countAuthorFetches (effs : List Eff) (author : String) : Nat :=
  effs.countP (isAuthorFetch author)

/- The membership part of a room's state (`role`, `nickname` fields). -/
structure MemberState where
  role : String
  nickname : String
  deriving DecidableEq, Repr

/- `setUnknownMembership()`. -/
def setUnknownMembership : MemberState :=
  ⟨"", "unknown"⟩

/- `ensureMember()`: when `this.role === ''`, writes a member-role record with
the app's current nickname via `getMemberRef(this.rid).set(member)` — no uid
argument, so the path uses `this.uid` (possibly absent); no `.catch` is
attached to the write. The local `role`/`nickname` fields are not touched. -/
def ensureMember (st : MemberState) (app : AppAuth) (rid : String) :
    MemberState × List Eff :=
  if st.role = "" then
    (st,
      [Eff.remote
        (RemoteOp.setMember rid (getMemberRefUid app none) ⟨app.nickname, "member"⟩)
        OnReject.unhandled])
  else (st, [])

/- `sendMessage(message)`: `ensureSignedIn` throws synchronously when
`this.uid` is absent; otherwise a push to `messages/<rid>` is issued with no
rejection handler. -/
def sendMessage (app : AppAuth) (rid : String) (body : String) :
    Except JsError (List Eff) :=
  match app.uid with
  | none => Except.error (notAuthenticatedError "send a message")
  | some u =>
      Except.ok [Eff.remote (RemoteOp.pushMessage rid u body) OnReject.unhandled]

/- The effects issued on the success path of `createRoom(name)`: the room
record write and the owner membership write; the whole chain ends in
`.catch((error) => this.displayError(error))`, and the membership write is
returned from its `.then`, so both rejections route to `displayError`.
`ensureSignedIn("create a room")` throws first when signed out. -/
def createRoom (app : AppAuth) (newRid : String) (name : String) :
    Except JsError (List Eff) :=
  match app.uid with
  | none => Except.error (notAuthenticatedError "create a room")
  | some _ =>
      Except.ok
        [Eff.remote (RemoteOp.setRoom newRid (some ⟨false, name⟩))
          OnReject.toDisplayError,
          Eff.remote
            (RemoteOp.setMember newRid (getMemberRefUid app none)
              ⟨app.nickname, "owner"⟩)
            OnReject.toDisplayError]

/- `deleteRoom(room)`: the message-subtree clear has no handler (the comment
says "May fail if there are no messages - ignore"); the room-record deletion
chain ends in `.catch((e) => this.displayError(e))`; but the members-subtree
deletion inside the `.then` callback is not returned from it, so its rejection
escapes that catch — it is unhandled. -/
def deleteRoom (rid : String) : List Eff :=
  [Eff.remote (RemoteOp.clearMessages rid) OnReject.unhandled,
    Eff.remote (RemoteOp.setRoom rid none) OnReject.toDisplayError,
    Eff.remote (RemoteOp.deleteMembers rid) OnReject.unhandled]

/- The membership fetch a room issues when the signed-in identity changes
(RoomImpl constructor): `once(...)` followed by `.catch((e) =>
this.app.displayError(e))`. -/
def identityFetch (rid : String) (uid : String) : List Eff :=
  [Eff.remote (RemoteOp.onceMember rid (some uid)) OnReject.toDisplayError]

/- App-level state. `RoomS` is the registry view of a room; `oid` is the ghost
allocation identity of the `RoomImpl` object. -/
structure RoomS where
  oid : Nat
  rid : String
  name : String
  deriving DecidableEq, Repr

/- `AppState` (`nickname`, `rooms`, `currentRoom`, `latestError`), plus the
ghost allocation counter for fresh `RoomImpl` objects. -/
structure AppState where
  nickname : String
  rooms : List RoomS
  currentRoom : Option RoomS
  latestError : String
  freshOid : Nat
  deriving DecidableEq, Repr

/- The state installed at the end of the `AppOnFirebase` constructor. -/
def initialState : AppState :=
  ⟨"anonymous", [], none, "", 0⟩

/- `findRoom(rid)`: first room in `state.rooms` whose `rid` matches. -/
def findRoom (rooms : List RoomS) (rid : String) : Option RoomS :=
  rooms.find? (fun r => r.rid == rid)

/- The `child_added` handler on `rooms`: a new `RoomImpl` is pushed only when
`findRoom` misses; `updateListeners()` runs on both paths (it sits outside the
`if`). The Bool is "a notification was requested". -/
def onChildAdded (s : AppState) (rid : String) (info : RoomData) :
    AppState × Bool :=
  match findRoom s.rooms rid with
  | some _ => (s, true)
  | none =>
      ({ s with
          rooms := s.rooms ++ [⟨s.freshOid, rid, info.name⟩],
          freshOid := s.freshOid + 1 },
        true)

/- The splice loop of the `child_removed` handler: scan for the first element
identical (`===`) to the target, remove it and return; `none` when the loop
falls through without splicing. -/
def spliceLoop : List RoomS → RoomS → Option (List RoomS)
  | [], _ => none
  | x :: rest, target =>
      if x = target then some rest
      else Option.map (fun l => x :: l) (spliceLoop rest target)

/- The `child_removed` handler on `rooms`: when the key is found, the
selection is cleared if it is the removed room, then the splice loop runs —
and returns out of the handler, so the trailing `updateListeners()` call is
reached only if the loop falls through. Unknown keys do nothing. -/
/- Body of the `child_removed` handler once `findRoom` matched: the selection
is cleared when it is the removed room (`===` comparison), then the splice loop
runs; when it splices it returns out of the handler (no notification), and only
when it falls through is the trailing `updateListeners()` call reached. -/
def removeRoomStep (s : AppState) (room : RoomS) : AppState × Bool :=
  match spliceLoop s.rooms room with
  | some rooms2 =>
      ({ s with
          currentRoom := if s.currentRoom = some room then none else s.currentRoom,
          rooms := rooms2 },
        false)
  | none =>
      ({ s with
          currentRoom := if s.currentRoom = some room then none else s.currentRoom },
        true)

def onChildRemoved (s : AppState) (key : String) : AppState × Bool :=
  match findRoom s.rooms key with
  | none => (s, false)
  | some room => removeRoomStep s room

/- `selectRoom(room)`: guarded only by `room &&` (non-null) and
`room !== this.state.currentRoom`; on the selected path it also triggers
`ensureMember()` and `listenForMessages()` on the room (modelled separately)
and requests a notification. There is no check that `room` is in the
registry. -/
def selectRoom (s : AppState) (room : Option RoomS) : AppState × Bool :=
  match room with
  | none => (s, false)
  | some r =>
      if s.currentRoom = some r then (s, false)
      else ({ s with currentRoom := some r }, true)

/- `setNickname(name)`. -/
def setNickname (s : AppState) (n : String) : AppState × Bool :=
  ({ s with nickname := n }, true)

/- `displayError(error)`: stores the message in `latestError` and requests a
notification. -/
def displayError (s : AppState) (e : JsError) : AppState × Bool :=
  ({ s with latestError := e.message }, true)

/- Reachable engine states, with `selectRoom` restricted to rooms present in
the registry (the discipline a UI driving itself from snapshots follows). -/
inductive Reach : AppState → Prop
  | init : Reach initialState
  | childAdded (s : AppState) (rid : String) (info : RoomData) :
      Reach s → Reach (onChildAdded s rid info).1
  | childRemoved (s : AppState) (key : String) :
      Reach s → Reach (onChildRemoved s key).1
  | selectInRegistry (s : AppState) (r : RoomS) :
      Reach s → r ∈ s.rooms → Reach (selectRoom s (some r)).1
  | nicknameSet (s : AppState) (n : String) :
      Reach s → Reach (setNickname s n).1
  | errorShown (s : AppState) (e : JsError) :
      Reach s → Reach (displayError s e).1

/- The notification coalescer (`updateListeners` / `pendingUpdate` /
`Promise.resolve().then(...)`), over an abstract mutable state `σ`. `queued`
counts the scheduled microtask callbacks; `hasListener` models whether
`this.listener` is set. -/
structure Coalescer (σ : Type) where
  state : σ
  pendingUpdate : Bool
  queued : Nat
  hasListener : Bool

/- `getState()`: `Object.assign({}, this.state)` — a value copy. -/
def getState {σ : Type} (s : σ) : σ := s

/- `updateListeners()`: no-op when an update is already pending, otherwise
mark pending and schedule one microtask callback. -/
def updateListeners {σ : Type} (c : Coalescer σ) : Coalescer σ :=
  if c.pendingUpdate then c
  else { c with pendingUpdate := true, queued := c.queued + 1 }

/- What can happen synchronously within one scheduling tick: a state mutation,
or a notification request. -/
inductive TickEvent (σ : Type)
  | mutate (f : σ → σ)
  | requestNotify

def tickStep {σ : Type} (c : Coalescer σ) : TickEvent σ → Coalescer σ
  | TickEvent.mutate f => { c with state := f c.state }
  | TickEvent.requestNotify => updateListeners c

def runTick {σ : Type} (c : Coalescer σ) (evs : List (TickEvent σ)) : Coalescer σ :=
  evs.foldl tickStep c

/- When the microtask queue drains, each scheduled callback clears the pending
flag and, if a listener is registered, invokes it with `getState()` evaluated
at invocation time; the returned list is the sequence of snapshots delivered
(the callbacks themselves do not mutate `state`). -/
def drain {σ : Type} (c : Coalescer σ) : List σ :=
  if c.hasListener then List.replicate c.queued (getState c.state) else []

/- The composite of the mutations of a tick, in order. -/
def applyMutations {σ : Type} (evs : List (TickEvent σ)) (s : σ) : σ :=
  evs.foldl
    (fun acc e =>
      match e with
      | TickEvent.mutate f => f acc
      | TickEvent.requestNotify => acc)
    s

def isNotifyEvent {σ : Type} : TickEvent σ → Bool
  | TickEvent.requestNotify => true
  | _ => false

/- The number M of synchronous `updateListeners()` requests in a tick. -/
def notifyCount {σ : Type} (evs : List (TickEvent σ)) : Nat :=
  evs.countP isNotifyEvent

/- The effects actually issued by a call that may throw synchronously: a
thrown call issues none. -/
def effectsIssued : Except JsError (List Eff) → List Eff
  | Except.ok l => l
  | Except.error _ => []

/- Concrete states used to instantiate the universally quantified theorems. -/

def c1demoRoom : RoomS :=
  ⟨0, "general", "General"⟩

def c1s1 : AppState :=
  (onChildAdded initialState "general" ⟨false, "General"⟩).1

def c1s2 : AppState :=
  (selectRoom c1s1 (some c1demoRoom)).1

def c3evs : List (TickEvent Nat) :=
  [TickEvent.mutate (fun n => n + 1), TickEvent.requestNotify,
    TickEvent.mutate (fun n => n * 2), TickEvent.requestNotify]

end GroupChat

namespace GroupChat

/- Supporting lemmas. -/

lemma contains_iff (l : List String) (a : String) : l.contains a = true ↔ a ∈ l := by
  simp

lemma findRoom_mem {rooms : List RoomS} {rid : String} {r : RoomS}
    (h : findRoom rooms rid = some r) : r ∈ rooms :=
  List.mem_of_find?_eq_some h

lemma spliceLoop_isSome_of_mem {l : List RoomS} {t : RoomS} (h : t ∈ l) :
    (spliceLoop l t).isSome := by
  induction l with
  | nil => simp at h
  | cons x rest ih =>
      by_cases hx : x = t
      · simp [spliceLoop, hx]
      · rcases List.mem_cons.mp h with h1 | h2
        · exact absurd h1.symm hx
        · simp [spliceLoop, hx]
          exact ih h2

lemma mem_spliceLoop {l l2 : List RoomS} {t c : RoomS} (hc : c ∈ l) (hne : c ≠ t)
    (hs : spliceLoop l t = some l2) : c ∈ l2 := by
  induction l generalizing l2 with
  | nil => simp at hc
  | cons x rest ih =>
      by_cases hx : x = t
      · simp only [spliceLoop, if_pos hx, Option.some.injEq] at hs
        subst hs
        rcases List.mem_cons.mp hc with h1 | h2
        · exact absurd (h1.trans hx) hne
        · exact h2
      · simp only [spliceLoop, if_neg hx, Option.map_eq_some'] at hs
        obtain ⟨m, hm, rfl⟩ := hs
        rcases List.mem_cons.mp hc with h1 | h2
        · exact List.mem_cons.mpr (Or.inl h1)
        · exact List.mem_cons.mpr (Or.inr (ih h2 hm))

lemma spliceLoop_sublist {l l2 : List RoomS} {t : RoomS}
    (hs : spliceLoop l t = some l2) : l2.Sublist l := by
  induction l generalizing l2 with
  | nil => simp [spliceLoop] at hs
  | cons x rest ih =>
      by_cases hx : x = t
      · simp only [spliceLoop, if_pos hx, Option.some.injEq] at hs
        subst hs
        exact List.sublist_cons_self x rest
      · simp only [spliceLoop, if_neg hx, Option.map_eq_some'] at hs
        obtain ⟨m, hm, rfl⟩ := hs
        exact List.Sublist.cons₂ x (ih hm)

lemma removeRoomStep_splice {s : AppState} {room : RoomS} {rooms2 : List RoomS}
    (hsp : spliceLoop s.rooms room = some rooms2) :
    removeRoomStep s room
      = ({ s with
          currentRoom := if s.currentRoom = some room then none else s.currentRoom,
          rooms := rooms2 },
        false) := by
  unfold removeRoomStep
  rw [hsp]

lemma removeRoomStep_noSplice {s : AppState} {room : RoomS}
    (hsp : spliceLoop s.rooms room = none) :
    removeRoomStep s room
      = ({ s with
          currentRoom := if s.currentRoom = some room then none else s.currentRoom },
        true) := by
  unfold removeRoomStep
  rw [hsp]

lemma onChildRemoved_none {s : AppState} {key : String}
    (hf : findRoom s.rooms key = none) :
    onChildRemoved s key = (s, false) := by
  unfold onChildRemoved
  rw [hf]

lemma onChildRemoved_step {s : AppState} {key : String} {room : RoomS}
    (hf : findRoom s.rooms key = some room) :
    onChildRemoved s key = removeRoomStep s room := by
  unfold onChildRemoved
  rw [hf]

lemma onChildAdded_found {s : AppState} {rid : String} {info : RoomData}
    (h : ∃ r, findRoom s.rooms rid = some r) :
    (onChildAdded s rid info).1 = s := by
  obtain ⟨r, hr⟩ := h
  unfold onChildAdded
  rw [hr]

lemma onChildAdded_miss {s : AppState} {rid : String} (info : RoomData)
    (hf : findRoom s.rooms rid = none) :
    (onChildAdded s rid info).1
      = { s with
          rooms := s.rooms ++ [⟨s.freshOid, rid, info.name⟩],
          freshOid := s.freshOid + 1 } := by
  unfold onChildAdded
  rw [hf]

lemma findRoom_onChildAdded_self (s : AppState) (rid : String) (info : RoomData) :
    ∃ r, findRoom ((onChildAdded s rid info).1).rooms rid = some r := by
  cases hf : findRoom s.rooms rid with
  | some r =>
      refine ⟨r, ?_⟩
      rw [onChildAdded_found ⟨r, hf⟩]
      exact hf
  | none =>
      refine ⟨⟨s.freshOid, rid, info.name⟩, ?_⟩
      rw [onChildAdded_miss info hf]
      unfold findRoom at hf ⊢
      simp [List.find?_append, hf]

lemma selectRoom_rooms (s : AppState) (room : Option RoomS) :
    ((selectRoom s room).1).rooms = s.rooms := by
  cases room with
  | none => rfl
  | some r =>
      by_cases h : s.currentRoom = some r
      · simp [selectRoom, h]
      · simp [selectRoom, h]

lemma nodup_onChildAdded {s : AppState} {rid : String} {info : RoomData}
    (h : (s.rooms.map RoomS.rid).Nodup) :
    ((((onChildAdded s rid info).1).rooms).map RoomS.rid).Nodup := by
  cases hf : findRoom s.rooms rid with
  | some r =>
      rw [onChildAdded_found ⟨r, hf⟩]
      exact h
  | none =>
      rw [onChildAdded_miss info hf]
      have hnot : rid ∉ s.rooms.map RoomS.rid := by
        intro hmem
        obtain ⟨r, hr, hrid⟩ := List.mem_map.mp hmem
        have hall := List.find?_eq_none.mp hf r hr
        simp [hrid] at hall
      have hmap : ((s.rooms ++ [(⟨s.freshOid, rid, info.name⟩ : RoomS)]).map RoomS.rid)
          = s.rooms.map RoomS.rid ++ [rid] := by
        simp
      show ((s.rooms ++ [(⟨s.freshOid, rid, info.name⟩ : RoomS)]).map RoomS.rid).Nodup
      rw [hmap, List.Perm.nodup_iff (List.perm_append_singleton rid (s.rooms.map RoomS.rid))]
      exact List.nodup_cons.mpr ⟨hnot, h⟩

lemma nodup_onChildRemoved {s : AppState} {key : String}
    (h : (s.rooms.map RoomS.rid).Nodup) :
    ((((onChildRemoved s key).1).rooms).map RoomS.rid).Nodup := by
  cases hf : findRoom s.rooms key with
  | none =>
      rw [onChildRemoved_none hf]
      exact h
  | some room =>
      rw [onChildRemoved_step hf]
      cases hs : spliceLoop s.rooms room with
      | some rooms2 =>
          rw [removeRoomStep_splice hs]
          exact h.sublist ((spliceLoop_sublist hs).map RoomS.rid)
      | none =>
          rw [removeRoomStep_noSplice hs]
          exact h

end GroupChat

namespace GroupChat

lemma runTick_cons {σ : Type} (c : Coalescer σ) (e : TickEvent σ)
    (rest : List (TickEvent σ)) :
    runTick c (e :: rest) = runTick (tickStep c e) rest :=
  rfl

lemma updateListeners_state {σ : Type} (c : Coalescer σ) :
    (updateListeners c).state = c.state := by
  unfold updateListeners
  split <;> rfl

lemma updateListeners_hasListener {σ : Type} (c : Coalescer σ) :
    (updateListeners c).hasListener = c.hasListener := by
  unfold updateListeners
  split <;> rfl

lemma runTick_state {σ : Type} (evs : List (TickEvent σ)) :
    ∀ c : Coalescer σ, (runTick c evs).state = applyMutations evs c.state := by
  induction evs with
  | nil => intro c; rfl
  | cons e rest ih =>
      intro c
      cases e with
      | mutate f =>
          rw [runTick_cons, ih]
          rfl
      | requestNotify =>
          rw [runTick_cons, ih]
          show applyMutations rest (updateListeners c).state = _
          rw [updateListeners_state]
          rfl

lemma runTick_hasListener {σ : Type} (evs : List (TickEvent σ)) :
    ∀ c : Coalescer σ, (runTick c evs).hasListener = c.hasListener := by
  induction evs with
  | nil => intro c; rfl
  | cons e rest ih =>
      intro c
      cases e with
      | mutate f =>
          rw [runTick_cons, ih]
          rfl
      | requestNotify =>
          rw [runTick_cons, ih]
          exact updateListeners_hasListener c

lemma runTick_pending_true {σ : Type} (evs : List (TickEvent σ)) :
    ∀ c : Coalescer σ, c.pendingUpdate = true →
      (runTick c evs).pendingUpdate = true ∧ (runTick c evs).queued = c.queued := by
  induction evs with
  | nil => intro c h; exact ⟨h, rfl⟩
  | cons e rest ih =>
      intro c h
      cases e with
      | mutate f =>
          rw [runTick_cons]
          exact ih _ h
      | requestNotify =>
          rw [runTick_cons]
          have hstep : tickStep c TickEvent.requestNotify = c := by
            simp [tickStep, updateListeners, h]
          rw [hstep]
          exact ih c h

lemma runTick_queued_of_notify {σ : Type} (evs : List (TickEvent σ)) :
    ∀ c : Coalescer σ, c.pendingUpdate = false → 0 < notifyCount evs →
      (runTick c evs).queued = c.queued + 1 := by
  induction evs with
  | nil =>
      intro c h hn
      simp [notifyCount] at hn
  | cons e rest ih =>
      intro c h hn
      cases e with
      | mutate f =>
          rw [runTick_cons]
          have hrest : 0 < notifyCount rest := by
            simpa [notifyCount, List.countP_cons, isNotifyEvent] using hn
          exact ih _ h hrest
      | requestNotify =>
          rw [runTick_cons]
          have hstep : tickStep c TickEvent.requestNotify
              = { c with pendingUpdate := true, queued := c.queued + 1 } := by
            simp [tickStep, updateListeners, h]
          rw [hstep]
          exact (runTick_pending_true rest _ rfl).2

lemma rewriteFrom_length (l : List Message) (i : Nat) (n : String) :
    (rewriteFrom l i n).length = l.length := by
  unfold rewriteFrom
  cases h : l.get? i with
  | none => rfl
  | some m => simp [List.length_set]

lemma set_concat_self (l : List Message) (m v : Message) :
    (l ++ [m]).set l.length v = l ++ [v] := by
  induction l with
  | nil => rfl
  | cons x xs ih =>
      show x :: ((xs ++ [m]).set xs.length v) = x :: (xs ++ [v])
      rw [ih]

lemma rewriteFrom_concat (l : List Message) (m : Message) (n : String) :
    rewriteFrom (l ++ [m]) l.length n = l ++ [{ m with from_ := n }] := by
  unfold rewriteFrom
  rw [List.get?_eq_getElem?, List.getElem?_concat_length]
  exact set_concat_self l m _

lemma ensureMessage_dup {r : RoomMsgS} {mid : String} (msg : Message)
    (hc : r.hasMessage.contains mid = true) :
    ensureMessage r mid msg = (r, []) := by
  have hmem : mid ∈ r.hasMessage := (contains_iff r.hasMessage mid).mp hc
  unfold ensureMessage
  simp [hmem]

lemma not_mem_of_contains_false {l : List String} {a : String}
    (hc : l.contains a = false) : a ∉ l := by
  intro hm
  rw [← contains_iff l a, hc] at hm
  exact Bool.false_ne_true hm

lemma ensureMessage_miss {r : RoomMsgS} {mid : String} {msg : Message}
    (hc : r.hasMessage.contains mid = false) :
    ((ensureMessage r mid msg).1).messages.length = r.messages.length + 1 ∧
    ((ensureMessage r mid msg).1).hasMessage = r.hasMessage ++ [mid] := by
  have hmem : mid ∉ r.hasMessage := not_mem_of_contains_false hc
  unfold ensureMessage
  cases hn : lookupNick r.nicknameOf msg.from_ with
  | some nick =>
      by_cases hne : nick = ""
      · simp [hmem, addMessage, hn, hne]
      · simp [hmem, addMessage, hn, hne, rewriteFrom_length]
  | none => simp [hmem, addMessage, hn]

lemma runIngests_length (l : List (String × Message)) :
    ∀ r : RoomMsgS,
      ((runIngests l r).1).messages.length =
        r.messages.length + ((l.map Prod.fst).toFinset \ r.hasMessage.toFinset).card := by
  induction l with
  | nil => intro r; simp [runIngests]
  | cons p rest ih =>
      intro r
      obtain ⟨mid, msg⟩ := p
      by_cases hc : r.hasMessage.contains mid = true
      · have hno := ensureMessage_dup msg hc
        have hmem : mid ∈ r.hasMessage.toFinset := by
          rw [List.mem_toFinset]
          exact (contains_iff _ _).mp hc
        show ((runIngests ((mid, msg) :: rest) r).1).messages.length = _
        rw [show (runIngests ((mid, msg) :: rest) r).1
            = (runIngests rest (ensureMessage r mid msg).1).1 from rfl]
        rw [hno, ih r]
        simp [List.toFinset_cons, Finset.insert_sdiff_of_mem _ hmem]
      · have hcf : r.hasMessage.contains mid = false := by
          simpa using hc
        obtain ⟨hlen, hhas⟩ := @ensureMessage_miss r mid msg hcf
        have hmidnot : mid ∉ r.hasMessage.toFinset := by
          rw [List.mem_toFinset]
          intro hm
          rw [← contains_iff] at hm
          rw [hcf] at hm
          cases hm
        show ((runIngests ((mid, msg) :: rest) r).1).messages.length = _
        rw [show (runIngests ((mid, msg) :: rest) r).1
            = (runIngests rest (ensureMessage r mid msg).1).1 from rfl]
        rw [ih, hlen, hhas]
        have htf : (r.hasMessage ++ [mid]).toFinset = insert mid r.hasMessage.toFinset := by
          rw [List.toFinset_append]
          ext x
          simp [or_comm]
        rw [htf]
        have hkey : (insert mid (rest.map Prod.fst).toFinset) \ r.hasMessage.toFinset
            = insert mid
                ((rest.map Prod.fst).toFinset \ insert mid r.hasMessage.toFinset) := by
          ext x
          simp only [Finset.mem_sdiff, Finset.mem_insert]
          constructor
          · rintro ⟨hx | hx, hxt⟩
            · exact Or.inl hx
            · by_cases hxm : x = mid
              · exact Or.inl hxm
              · exact Or.inr ⟨hx, fun hor => hor.elim hxm hxt⟩
          · rintro (hx | ⟨hxs, hxn⟩)
            · subst hx
              exact ⟨Or.inl rfl, hmidnot⟩
            · exact ⟨Or.inr hxs, fun hxt => hxn (Or.inr hxt)⟩
        have hnotin : mid ∉ (rest.map Prod.fst).toFinset \ insert mid r.hasMessage.toFinset := by
          simp
        have hcard : ((insert mid (rest.map Prod.fst).toFinset) \ r.hasMessage.toFinset).card
            = ((rest.map Prod.fst).toFinset \ insert mid r.hasMessage.toFinset).card + 1 := by
          rw [hkey, Finset.card_insert_of_not_mem hnotin]
        simp only [List.map_cons, List.toFinset_cons]
        rw [hcard]
        omega

end GroupChat

namespace GroupChat

/-- Claim C1, counterexample. The claim states that `selectRoom(room)` is a
no-op when `room` is absent from the registry. In the code the guard is only
`room && room !== this.state.currentRoom`: selecting a room that is not in the
registry succeeds, sets it as `currentRoom`, and thereby produces a state in
which the selected room is not an element of `rooms`. -/
theorem c1_counterexample :
    ((selectRoom initialState (some ⟨0, "ghost", "Ghost"⟩)).1).currentRoom
        = some ⟨0, "ghost", "Ghost"⟩ ∧
    (⟨0, "ghost", "Ghost"⟩ : RoomS) ∉ ((selectRoom initialState (some ⟨0, "ghost", "Ghost"⟩)).1).rooms ∧
    (selectRoom initialState (some ⟨0, "ghost", "Ghost"⟩)).1 ≠ initialState := by
  decide

/-- Claim C1 (amended): `selectRoom` does not check registry membership, so the
selection invariant holds only for call sequences in which `selectRoom` is
invoked with rooms present in the registry. Under that discipline, in every
reachable state, if `currentRoom` is present then it is an element of `rooms`
(in particular the `child_removed` handler clears the selection when it removes
the selected room). -/
theorem c1_selection_invariant :
    ∀ s : AppState, Reach s → ∀ r : RoomS, s.currentRoom = some r → r ∈ s.rooms := by
  intro s h
  induction h with
  | init =>
      intro r hr
      simp [initialState] at hr
  | childAdded s rid info hs ih =>
      intro r hr
      cases hf : findRoom s.rooms rid with
      | some r0 =>
          rw [onChildAdded_found ⟨r0, hf⟩] at hr ⊢
          exact ih r hr
      | none =>
          rw [onChildAdded_miss info hf] at hr ⊢
          exact List.mem_append_left _ (ih r hr)
  | childRemoved s key hs ih =>
      intro r hr
      cases hf : findRoom s.rooms key with
      | none =>
          rw [onChildRemoved_none hf] at hr ⊢
          exact ih r hr
      | some room =>
          rw [onChildRemoved_step hf] at hr ⊢
          cases hsp : spliceLoop s.rooms room with
          | some rooms2 =>
              rw [removeRoomStep_splice hsp] at hr ⊢
              by_cases hcur : s.currentRoom = some room
              · simp [hcur] at hr
              · have hr2 : s.currentRoom = some r := by
                  simpa [hcur] using hr
                have hmem : r ∈ s.rooms := ih r hr2
                have hne : r ≠ room := by
                  intro heq
                  exact hcur (by rw [hr2, heq])
                show r ∈ rooms2
                exact mem_spliceLoop hmem hne hsp
          | none =>
              rw [removeRoomStep_noSplice hsp] at hr ⊢
              by_cases hcur : s.currentRoom = some room
              · simp [hcur] at hr
              · have hr2 : s.currentRoom = some r := by
                  simpa [hcur] using hr
                show r ∈ s.rooms
                exact ih r hr2
  | selectInRegistry s r0 hs hmem ih =>
      intro r hr
      by_cases hcur : s.currentRoom = some r0
      · simp only [selectRoom, if_pos hcur] at hr ⊢
        exact ih r hr
      · simp only [selectRoom, if_neg hcur] at hr ⊢
        have hr2 : r0 = r := by
          simpa using hr
        exact hr2 ▸ hmem
  | nicknameSet s n hs ih =>
      intro r hr
      exact ih r hr
  | errorShown s e hs ih =>
      intro r hr
      exact ih r hr

/-- Claim C1, witness: the invariant instantiated on the concrete reachable
state obtained by adding room "general" and then selecting it. -/
theorem c1_selection_invariant_witness : c1demoRoom ∈ c1s2.rooms :=
  c1_selection_invariant c1s2
    (Reach.selectInRegistry c1s1 c1demoRoom
      (Reach.childAdded initialState "general" ⟨false, "General"⟩ Reach.init)
      (by decide))
    c1demoRoom (by decide)

/-- Claim C9: for every state and every `child_removed` key, the handler never
requests a notification — when the key matches a registry room the splice loop
returns out of the handler before the trailing `updateListeners()` call, and
when it does not match nothing runs at all; moreover when the removed room is
the current selection, the selection is cleared. -/
theorem c9_removed_room_never_notifies (s : AppState) (key : String) :
    (onChildRemoved s key).2 = false ∧
    (∀ r, findRoom s.rooms key = some r → s.currentRoom = some r →
      ((onChildRemoved s key).1).currentRoom = none) := by
  constructor
  · cases hf : findRoom s.rooms key with
    | none => rw [onChildRemoved_none hf]
    | some room =>
        rw [onChildRemoved_step hf]
        have hmem : room ∈ s.rooms := findRoom_mem hf
        have hsome := spliceLoop_isSome_of_mem hmem
        cases hs : spliceLoop s.rooms room with
        | none =>
            rw [hs] at hsome
            simp at hsome
        | some rooms2 => rw [removeRoomStep_splice hs]
  · intro r hf hcur
    rw [onChildRemoved_step hf]
    cases hs : spliceLoop s.rooms r with
    | some rooms2 =>
        rw [removeRoomStep_splice hs]
        simp [hcur]
    | none =>
        rw [removeRoomStep_noSplice hs]
        simp [hcur]

/-- Claim C9, witness: instantiated on a one-room state whose room is selected
and then removed. -/
theorem c9_removed_room_never_notifies_witness :
    (onChildRemoved ⟨"anonymous", [⟨0, "x", "X"⟩], some ⟨0, "x", "X"⟩, "", 1⟩ "x").2 = false ∧
    ((onChildRemoved ⟨"anonymous", [⟨0, "x", "X"⟩], some ⟨0, "x", "X"⟩, "", 1⟩ "x").1).currentRoom = none :=
  ⟨(c9_removed_room_never_notifies ⟨"anonymous", [⟨0, "x", "X"⟩], some ⟨0, "x", "X"⟩, "", 1⟩ "x").1,
    (c9_removed_room_never_notifies ⟨"anonymous", [⟨0, "x", "X"⟩], some ⟨0, "x", "X"⟩, "", 1⟩ "x").2
      ⟨0, "x", "X"⟩ (by decide) (by decide)⟩

/-- Claim C6: the room registry is duplicate-free. In every reachable state the
rids of the registry are pairwise distinct; a second `child_added` delivery for
an id already present is a no-op on the state; and two deliveries for the same
id starting from the initial state leave exactly one room with that id. -/
theorem c6_room_uniqueness :
    (∀ s : AppState, Reach s → ((s.rooms.map RoomS.rid).Nodup)) ∧
    (∀ (s : AppState) (rid : String) (info info2 : RoomData),
      (onChildAdded (onChildAdded s rid info).1 rid info2).1 = (onChildAdded s rid info).1) ∧
    (∀ (rid : String) (info info2 : RoomData),
      (((onChildAdded (onChildAdded initialState rid info).1 rid info2).1).rooms.countP
        (fun r => r.rid == rid)) = 1) := by
  refine ⟨?_, ?_, ?_⟩
  · intro s h
    induction h with
    | init => simp [initialState]
    | childAdded s rid info hs ih => exact nodup_onChildAdded ih
    | childRemoved s key hs ih => exact nodup_onChildRemoved ih
    | selectInRegistry s r hs hmem ih =>
        rw [selectRoom_rooms]
        exact ih
    | nicknameSet s n hs ih => exact ih
    | errorShown s e hs ih => exact ih
  · intro s rid info info2
    exact onChildAdded_found (findRoom_onChildAdded_self s rid info)
  · intro rid info info2
    have h0 : findRoom initialState.rooms rid = none := rfl
    have h1 : (onChildAdded initialState rid info).1
        = { initialState with
            rooms := [⟨0, rid, info.name⟩],
            freshOid := 1 } := by
      rw [onChildAdded_miss info h0]
      rfl
    have h2 : (onChildAdded (onChildAdded initialState rid info).1 rid info2).1
        = (onChildAdded initialState rid info).1 :=
      onChildAdded_found (findRoom_onChildAdded_self initialState rid info)
    rw [h2, h1]
    simp [List.countP_cons]

/-- Claim C6, witness: the rid list of a concretely reached one-room state is
duplicate-free. -/
theorem c6_room_uniqueness_witness :
    (((onChildAdded initialState "lobby" ⟨false, "Lobby"⟩).1).rooms.map RoomS.rid).Nodup :=
  c6_room_uniqueness.1 (onChildAdded initialState "lobby" ⟨false, "Lobby"⟩).1
    (Reach.childAdded initialState "lobby" ⟨false, "Lobby"⟩ Reach.init)

end GroupChat

namespace GroupChat

/-- Claim C5: message ingestion is idempotent. Ingesting an already-seen
message id is a no-op with no effects, and after any sequence of ingest calls
into a fresh room the log holds exactly one Message per distinct ingested id
(its length is the number of distinct ids), so a sequence containing an id
twice yields exactly one Message for it. -/
theorem c5_ingest_idempotent :
    (∀ (r : RoomMsgS) (mid : String) (msg : Message),
      r.hasMessage.contains mid = true → ensureMessage r mid msg = (r, [])) ∧
    (∀ (rid : String) (l : List (String × Message)),
      ((runIngests l (freshRoom rid)).1).messages.length
        = (l.map Prod.fst).toFinset.card) := by
  constructor
  · intro r mid msg hc
    exact ensureMessage_dup msg hc
  · intro rid l
    have h := runIngests_length l (freshRoom rid)
    simpa [freshRoom] using h

/-- Claim C5, witness: re-ingesting id "m1" into a room that has already
ingested it leaves the room unchanged and issues no effect. -/
theorem c5_ingest_idempotent_witness :
    ensureMessage ⟨"r1", [⟨"alice", 1, "hi"⟩], ["m1"], []⟩ "m1" ⟨"alice", 1, "hi"⟩
      = (⟨"r1", [⟨"alice", 1, "hi"⟩], ["m1"], []⟩, []) :=
  c5_ingest_idempotent.1 ⟨"r1", [⟨"alice", 1, "hi"⟩], ["m1"], []⟩ "m1"
    ⟨"alice", 1, "hi"⟩ (by decide)

/-- Claim C2, counterexample. The claim states that resolution requests for the
same unresolved author issued before the first fetch completes share the
pending result, with zero duplicate fetches. In the code `nicknameOf` is only
populated in the fetch callback, so before any completion a second ingest from
the same author misses the cache and issues a second fetch: one ingest issues
one fetch, two ingests issue two. Moreover the cache guard is a truthiness
test, so even a completed resolution that cached the empty string triggers yet
another fetch on the next ingest. -/
theorem c2_counterexample :
    countAuthorFetches
        (runIngests [("m1", ⟨"alice", 1, "hi"⟩)] (freshRoom "r1")).2 "alice" = 1 ∧
    countAuthorFetches
        (runIngests [("m1", ⟨"alice", 1, "hi"⟩), ("m2", ⟨"alice", 2, "again"⟩)]
          (freshRoom "r1")).2 "alice" = 2 ∧
    countAuthorFetches
        (ensureMessage ⟨"r1", [], [], [("alice", "")]⟩ "m1" ⟨"alice", 3, "hi"⟩).2
        "alice" = 1 := by
  decide

/-- Claim C2 (amended): duplicate fetches are avoided only once a fetch has
completed and cached a non-empty nickname for the author. When such a nickname
is cached, a new ingest issues zero fetches and rewrites the stored message's
author field synchronously to the cached nickname. (Requests issued before the
first fetch completes each issue their own fetch; and the source guard is a
truthiness test, so a cached empty-string nickname is falsy and also triggers
another fetch.) -/
theorem c2_cached_author_no_refetch (r : RoomMsgS) (mid : String) (msg : Message)
    (nick : String) (hmid : r.hasMessage.contains mid = false)
    (hnick : lookupNick r.nicknameOf msg.from_ = some nick) (hne : nick ≠ "") :
    ensureMessage r mid msg
      = ({ r with
          messages := r.messages ++ [{ msg with from_ := nick }],
          hasMessage := r.hasMessage ++ [mid] },
        [Eff.notify]) ∧
    countAuthorFetches (ensureMessage r mid msg).2 msg.from_ = 0 := by
  have hmem : mid ∉ r.hasMessage := not_mem_of_contains_false hmid
  have h1 : ensureMessage r mid msg
      = ({ r with
          messages := r.messages ++ [{ msg with from_ := nick }],
          hasMessage := r.hasMessage ++ [mid] },
        [Eff.notify]) := by
    unfold ensureMessage
    simp [hmem, addMessage, hnick, hne, rewriteFrom_concat]
  refine ⟨h1, ?_⟩
  rw [h1]
  rfl

/-- Claim C2, witness: instantiated with a room whose cache already resolves
"alice" to "Alice". -/
theorem c2_cached_author_no_refetch_witness :
    ensureMessage ⟨"r1", [], [], [("alice", "Alice")]⟩ "m1" ⟨"alice", 3, "hi"⟩
      = (⟨"r1", [⟨"Alice", 3, "hi"⟩], ["m1"], [("alice", "Alice")]⟩, [Eff.notify]) ∧
    countAuthorFetches
        (ensureMessage ⟨"r1", [], [], [("alice", "Alice")]⟩ "m1" ⟨"alice", 3, "hi"⟩).2
        "alice" = 0 :=
  c2_cached_author_no_refetch ⟨"r1", [], [], [("alice", "Alice")]⟩ "m1"
    ⟨"alice", 3, "hi"⟩ "Alice" (by decide) (by decide) (by decide)

/-- Claim C10: ingesting a message from an uncached author issues the
membership fetch, and the fetch callback dereferences the fetched record with
no null guard — on an author with no membership record (`snapshot.val()` is
null) the backfill callback throws instead of completing. -/
theorem c10_null_dereference :
    (ensureMessage (freshRoom "r1") "m1" ⟨"bob", 1, "hi"⟩).2
      = [Eff.remote (RemoteOp.onceMember "r1" (some "bob")) OnReject.unhandled] ∧
    ensureMessageFetchCallback (ensureMessage (freshRoom "r1") "m1" ⟨"bob", 1, "hi"⟩).1
        "bob" 0 none
      = Except.error nullFieldError := by
  exact ⟨rfl, rfl⟩

/-- Claim C4, counterexample. The claim states every asynchronous failure other
than the message-subtree clear in deleteRoom is captured and routed to
`latestError`. In the code the nickname fetch in `ensureMessage` has no
rejection handler, and the members-subtree deletion in `deleteRoom` is not
returned from its `.then` callback, so its rejection escapes the `.catch`:
both are unhandled, and unhandled is not the displayError routing. -/
theorem c4_counterexample :
    (ensureMessage (freshRoom "rA") "m1" ⟨"carol", 1, "hey"⟩).2
      = [Eff.remote (RemoteOp.onceMember "rA" (some "carol")) OnReject.unhandled] ∧
    deleteRoom "rA"
      = [Eff.remote (RemoteOp.clearMessages "rA") OnReject.unhandled,
          Eff.remote (RemoteOp.setRoom "rA" none) OnReject.toDisplayError,
          Eff.remote (RemoteOp.deleteMembers "rA") OnReject.unhandled] ∧
    OnReject.unhandled ≠ OnReject.toDisplayError := by
  exact ⟨rfl, rfl, by decide⟩

/-- Claim C4 (amended): `displayError` stores the error text in `latestError`
and requests a notification, and rejections are routed to it exactly for the
createRoom write chain, the room-record deletion in deleteRoom, and the
identity-change membership fetch; the message-subtree clear and members-subtree
deletion in deleteRoom, the ensureMember write, the sendMessage push, and the
ensureMessage nickname fetch carry no rejection handler. -/
theorem c4_error_routing :
    (∀ (s : AppState) (e : JsError),
      ((displayError s e).1).latestError = e.message ∧ (displayError s e).2 = true) ∧
    (∀ (app : AppAuth) (rid name : String) (effs : List Eff),
      createRoom app rid name = Except.ok effs →
        ∀ eff ∈ effs, handlerOf eff = some OnReject.toDisplayError) ∧
    (∀ rid : String, (deleteRoom rid).map handlerOf
      = [some OnReject.unhandled, some OnReject.toDisplayError, some OnReject.unhandled]) ∧
    (∀ (app : AppAuth) (rid body : String) (effs : List Eff),
      sendMessage app rid body = Except.ok effs →
        effs.map handlerOf = [some OnReject.unhandled]) ∧
    (∀ (st : MemberState) (app : AppAuth) (rid : String), st.role = "" →
      ((ensureMember st app rid).2).map handlerOf = [some OnReject.unhandled]) ∧
    (∀ rid uid : String, (identityFetch rid uid).map handlerOf
      = [some OnReject.toDisplayError]) ∧
    (∀ (r : RoomMsgS) (mid : String) (msg : Message),
      r.hasMessage.contains mid = false →
      lookupNick r.nicknameOf msg.from_ = none →
        ((ensureMessage r mid msg).2).map handlerOf = [some OnReject.unhandled]) := by
  refine ⟨?_, ?_, ?_, ?_, ?_, ?_, ?_⟩
  · intro s e
    exact ⟨rfl, rfl⟩
  · intro app rid name effs h eff heff
    unfold createRoom at h
    cases happ : app.uid with
    | none =>
        rw [happ] at h
        simp at h
    | some u =>
        rw [happ] at h
        simp at h
        subst h
        simp at heff
        rcases heff with h1 | h1 <;> subst h1 <;> rfl
  · intro rid
    rfl
  · intro app rid body effs h
    unfold sendMessage at h
    cases happ : app.uid with
    | none =>
        rw [happ] at h
        simp at h
    | some u =>
        rw [happ] at h
        simp at h
        subst h
        rfl
  · intro st app rid hrole
    simp [ensureMember, hrole, getMemberRefUid, handlerOf]
  · intro rid uid
    rfl
  · intro r mid msg hmid hnone
    have hmem : mid ∉ r.hasMessage := not_mem_of_contains_false hmid
    unfold ensureMessage
    simp [hmem, addMessage, hnone, handlerOf]

/-- Claim C4, witness: the unhandled-fetch conjunct instantiated on a fresh
room and an uncached author. -/
theorem c4_error_routing_witness :
    ((ensureMessage (freshRoom "rB") "m7" ⟨"dave", 9, "hello"⟩).2).map handlerOf
      = [some OnReject.unhandled] :=
  c4_error_routing.2.2.2.2.2.2 (freshRoom "rB") "m7" ⟨"dave", 9, "hello"⟩
    (by decide) (by decide)

/-- Claim C7: with no signed-in identity, `sendMessage` fails synchronously —
`ensureSignedIn` throws before the push — with the not-authenticated error, and
no store write is issued. -/
theorem c7_sendMessage_unauthenticated :
    ∀ (nick rid body : String),
      sendMessage ⟨none, nick⟩ rid body
        = Except.error (notAuthenticatedError "send a message") ∧
      effectsIssued (sendMessage ⟨none, nick⟩ rid body) = [] := by
  intro nick rid body
  exact ⟨rfl, rfl⟩

/-- Claim C8, counterexample. The claim states `ensureMember` writes only when
membership is Unknown and an identity is present. The code checks only
`this.role === ''`: with no identity present (uid absent) and Unknown
membership, the write is still issued — its member path carries the absent
uid. -/
theorem c8_counterexample :
    (⟨none, "anonymous"⟩ : AppAuth).uid = none ∧
    (ensureMember setUnknownMembership ⟨none, "anonymous"⟩ "r1").2
      = [Eff.remote (RemoteOp.setMember "r1" none ⟨"anonymous", "member"⟩)
          OnReject.unhandled] := by
  exact ⟨rfl, rfl⟩

/-- Claim C8 (amended): `ensureMember` issues the membership write exactly when
the room's role state is Unknown (the empty role), regardless of whether an
identity is present; the record written has role member and the app's current
nickname, the path uses the app's current uid (possibly absent), and the call
leaves the room's local role and nickname state unchanged. -/
theorem c8_ensureMember_spec :
    ∀ (st : MemberState) (app : AppAuth) (rid : String),
      (ensureMember st app rid).1 = st ∧
      (ensureMember st app rid).2
        = (if st.role = "" then
            [Eff.remote (RemoteOp.setMember rid app.uid ⟨app.nickname, "member"⟩)
              OnReject.unhandled]
          else []) := by
  intro st app rid
  by_cases h : st.role = ""
  · simp [ensureMember, h, getMemberRefUid]
  · simp [ensureMember, h]

/-- Claim C3: any number M ≥ 1 of synchronous notification requests within one
scheduling tick schedules exactly one microtask, so when the queue drains the
registered observer is invoked exactly once, and the snapshot it receives is
the state at invocation time — after all the tick's mutations, including those
performed after the first request. -/
theorem c3_coalescing {σ : Type} (s0 : σ) (evs : List (TickEvent σ))
    (h : 1 ≤ notifyCount evs) :
    drain (runTick ⟨s0, false, 0, true⟩ evs) = [applyMutations evs s0] := by
  have hq := runTick_queued_of_notify evs ⟨s0, false, 0, true⟩ rfl h
  have hst := runTick_state evs ⟨s0, false, 0, true⟩
  have hl := runTick_hasListener evs ⟨s0, false, 0, true⟩
  simp [drain, getState, hl, hq, hst]

/-- Claim C3, witness: a tick interleaving two mutations with two notification
requests delivers exactly one snapshot, equal to the fully mutated state
(0 + 1) * 2 = 2. -/
theorem c3_coalescing_witness :
    drain (runTick ⟨0, false, 0, true⟩ c3evs) = [2] :=
  c3_coalescing 0 c3evs (by decide)

end GroupChat
